import Mathlib

/-!
Verification development for the go-finance-website repository: a shallow
embedding of its analytics aggregation logic.  The backend code is the
Express server (spendwise-backend); the frontend code is the React client
(App.tsx and the spending-trends modal).  Monetary amounts are modelled as
exact rationals; instants as epoch milliseconds (a single fixed UTC-like
offset); the non-finite results of JavaScript division by zero (Infinity,
NaN) are modelled by `none`.
-/

namespace Spendwise

/-- Division as performed by the JavaScript runtime, with the non-finite
results (Infinity and NaN, produced exactly when the divisor is zero)
represented by `none`; finite quotients are exact rationals. -/
def jsDiv (a b : ℚ) : Option ℚ := if b = 0 then none else some (a / b)

/-- Backend expense record (the expense schema of server.js): the fields
the analytics code reads.  `ts` is the creation instant `timestamp` in
epoch milliseconds.  Every aggregation below receives the requesting
user's expenses, already filtered by the store query. -/
structure Expense where
  amount : ℚ
  category : String
  description : String
  date : String
  ts : ℤ
deriving DecidableEq

/-- Sum of the amount fields: the `reduce((sum, e) => sum + e.amount, 0)`
pattern used throughout server.js. -/
def sumAmounts (l : List Expense) : ℚ := (l.map (·.amount)).sum

/-- One day in milliseconds. -/
def dayMs : ℤ := 86400000

/-- Day number of an epoch-millisecond instant (floor division, as in the
Date internals). -/
def dayNumber (t : ℤ) : ℤ := t / dayMs

/-- Day-of-week index of an instant: 0 = Sunday, as returned by
`Date.getDay()` (1970-01-01 was a Thursday, index 4). -/
def weekday (t : ℤ) : ℤ := (dayNumber t + 4) % 7

/-- The `startOfCurrentWeek` of the trends route (server.js lines 361-363):
`setDate(now.getDate() - now.getDay())` followed by `setHours(0,0,0,0)`,
that is midnight of the most recent day-index-0 day. -/
def startOfWeekTrends (now : ℤ) : ℤ := (dayNumber now - weekday now) * dayMs

/-- Civil Gregorian date (year, month 1..12, day) of a day number; models
the `getFullYear()`/`getMonth()` (0-based, hence month - 1) reads on a
Date object. -/
def civilFromDays (z0 : ℤ) : ℤ × ℤ × ℤ :=
  let z := z0 + 719468
  let era := z / 146097
  let doe := z - era * 146097
  let yoe := (doe - doe / 1460 + doe / 36524 - doe / 146096) / 365
  let y := yoe + era * 400
  let doy := doe - (365 * yoe + yoe / 4 - yoe / 100)
  let mp := (5 * doy + 2) / 153
  let d := doy - (153 * mp + 2) / 5 + 1
  let m := mp + (if mp < 10 then 3 else -9)
  (y + (if m ≤ 2 then 1 else 0), m, d)

/-- Day number of a civil Gregorian date; also accepts month 0 as December
of the previous year, exactly as the `new Date(year, monthIndex, day)`
constructor normalizes it. -/
def daysFromCivil (y0 m d : ℤ) : ℤ :=
  let y := y0 - (if m ≤ 2 then 1 else 0)
  let era := y / 400
  let yoe := y - era * 400
  let doy := (153 * (m + (if 2 < m then -3 else 9)) + 2) / 5 + d - 1
  let doe := yoe * 365 + yoe / 4 - yoe / 100 + doy
  era * 146097 + doe - 719468

/-- Epoch milliseconds of midnight of day 1 of the given month:
`new Date(year, monthIndex, 1)` with 1-based month `m` (so the source's
`now.getMonth()` argument corresponds to `m`, and `now.getMonth() - 1`
to `m - 1`). -/
def monthStartMs (y m : ℤ) : ℤ := daysFromCivil y m 1 * dayMs

/-- One window of the trends response: `{current, last, change, difference}`
(server.js lines 405-418). -/
structure TrendWindow where
  current : ℚ
  last : ℚ
  change : Option ℚ
  difference : ℚ
deriving DecidableEq

structure TrendsReport where
  week : TrendWindow
  month : TrendWindow
deriving DecidableEq

/-- The change-percentage expression of the trends route (server.js lines
402-403): guarded division, 0 when the prior total is not positive. -/
def changePct (cur prior : ℚ) : Option ℚ :=
  if 0 < prior then (jsDiv (cur - prior) prior).map (fun q => q * 100) else some 0

/-- Response of `GET /api/analytics/trends` (server.js lines 356-423), with
`now` in epoch milliseconds. -/
def trends (l : List Expense) (now : ℤ) : TrendsReport :=
  let socw := startOfWeekTrends now
  let solw := socw - 7 * dayMs
  let curWeek := sumAmounts (l.filter (fun e => decide (socw ≤ e.ts)))
  let lastWeek := sumAmounts (l.filter (fun e => decide (solw ≤ e.ts ∧ e.ts < socw)))
  let c := civilFromDays (dayNumber now)
  let socm := monthStartMs c.1 c.2.1
  let solm := monthStartMs c.1 (c.2.1 - 1)
  let curMonth := sumAmounts (l.filter (fun e => decide (socm ≤ e.ts)))
  let lastMonth := sumAmounts (l.filter (fun e => decide (solm ≤ e.ts ∧ e.ts < socm)))
  { week := { current := curWeek, last := lastWeek,
              change := changePct curWeek lastWeek, difference := curWeek - lastWeek },
    month := { current := curMonth, last := lastMonth,
               change := changePct curMonth lastMonth, difference := curMonth - lastMonth } }

variable {α : Type*}

/-- Insertion step of a stable descending sort by a numeric key: the new
element goes in front of the first element whose key is not larger.  This
reproduces the stable `Array.prototype.sort` with comparator
`(a, b) => key(b) - key(a)` when elements are inserted back-to-front. -/
def insertDescBy (key : α → ℚ) (x : α) : List α → List α
  | [] => [x]
  | y :: ys => if key y ≤ key x then x :: y :: ys else y :: insertDescBy key x ys

/-- Stable descending sort by a numeric key. -/
def sortDescBy (key : α → ℚ) : List α → List α
  | [] => []
  | x :: xs => insertDescBy key x (sortDescBy key xs)

/-- Category keys in first-appearance order, as produced by the string-keyed
object accumulator of the categories reduce (JavaScript objects preserve
insertion order of string keys). -/
def keys : List Expense → List String
  | [] => []
  | e :: t => e.category :: (keys t).filter (fun c => decide (c ≠ e.category))

/-- A transaction entry pushed by the categories accumulator (server.js
lines 442-446).  `pos` records the position of the source expense in the
input sequence: it models the array index and is read by no computation
(the sort comparator looks only at `amount`). -/
structure Txn where
  amount : ℚ
  description : String
  date : String
  pos : ℕ
deriving DecidableEq

/-- The transactions accumulated for category `c`, in input order. -/
def txnsOf (l : List Expense) (c : String) : List Txn :=
  (l.enum.filter (fun p => decide (p.2.category = c))).map
    (fun p => { amount := p.2.amount, description := p.2.description,
                date := p.2.date, pos := p.1 })

/-- The user's expenses of category `c`, in input order. -/
def catFilter (l : List Expense) (c : String) : List Expense :=
  l.filter (fun e => decide (e.category = c))

/-- The `totalSpent` of the categories route (server.js line 450). -/
def totalSpent (l : List Expense) : ℚ := sumAmounts l

/-- One entry of the categories response (server.js lines 452-459). -/
structure CategoryEntry where
  category : String
  total : ℚ
  count : ℕ
  percentage : Option ℚ
  avgPerTransaction : Option ℚ
  topExpenses : List Txn
deriving DecidableEq

/-- The entry built for one category key (server.js lines 452-459): total
and count accumulated over the category's expenses, guarded percentage and
per-transaction average, and the five largest transactions obtained by the
stable descending sort. -/
def entryOf (l : List Expense) (c : String) : CategoryEntry :=
  { category := c,
    total := sumAmounts (catFilter l c),
    count := (catFilter l c).length,
    percentage :=
      if 0 < totalSpent l then
        (jsDiv (sumAmounts (catFilter l c)) (totalSpent l)).map (fun q => q * 100)
      else some 0,
    avgPerTransaction :=
      if 0 < (catFilter l c).length then
        jsDiv (sumAmounts (catFilter l c)) ((catFilter l c).length : ℚ)
      else some 0,
    topExpenses := (sortDescBy Txn.amount (txnsOf l c)).take 5 }

structure CategoryReport where
  categories : List CategoryEntry
  totalSpent : ℚ
  totalTransactions : ℕ
deriving DecidableEq

/-- Response of `GET /api/analytics/categories` (server.js lines 425-470):
one entry per category in first-appearance order, sorted by total
descending by the stable sort. -/
def categoryReport (l : List Expense) : CategoryReport :=
  { categories := sortDescBy CategoryEntry.total ((keys l).map (entryOf l)),
    totalSpent := totalSpent l,
    totalTransactions := l.length }

/-- Budget record (the budget schema of server.js): the fields the status
evaluator reads. -/
structure Budget where
  category : String
  limit : ℚ
  period : String
deriving DecidableEq

structure BudgetStatus where
  budget : Budget
  spent : ℚ
  remaining : ℚ
  percentage : Option ℚ
  isOverBudget : Bool
deriving DecidableEq

/-- Category filter of the budget-status query (server.js line 526): a
budget of category Total matches every expense, otherwise exact category
match. -/
def matchesBudget (b : Budget) (e : Expense) : Bool :=
  if b.category = "Total" then true else decide (e.category = b.category)

/-- Period start chosen for a budget (server.js line 522). -/
def periodStart (som sow : ℤ) (b : Budget) : ℤ :=
  if b.period = "monthly" then som else sow

/-- Status entry computed for one budget (server.js lines 521-540).  Note
the percentage division is unguarded in the source. -/
def statusOf (som sow : ℤ) (l : List Expense) (b : Budget) : BudgetStatus :=
  let spent := sumAmounts (l.filter
    (fun e => matchesBudget b e && decide (periodStart som sow b ≤ e.ts)))
  { budget := b,
    spent := spent,
    remaining := b.limit - spent,
    percentage := (jsDiv spent b.limit).map (fun q => q * 100),
    isOverBudget := decide (b.limit < spent) }

/-- The `startOfWeek` of the budget-status route (server.js lines 517-518):
`setDate(now.getDate() - now.getDay())`; the source does not reset the
time of day here. -/
def startOfWeekBudgets (now : ℤ) : ℤ := now - weekday now * dayMs

/-- The `startOfMonth` of the budget-status route (server.js line 516). -/
def budgetMonthStart (now : ℤ) : ℤ :=
  monthStartMs (civilFromDays (dayNumber now)).1 (civilFromDays (dayNumber now)).2.1

/-- Response of `GET /api/budgets/status` (server.js lines 512-549). -/
def budgetStatusAt (now : ℤ) (budgets : List Budget) (l : List Expense) :
    List BudgetStatus :=
  budgets.map (statusOf (budgetMonthStart now) (startOfWeekBudgets now) l)

/-- Client-side expense record (App.tsx interface Expense). -/
structure ClientExpense where
  id : String
  amount : ℚ
  category : String
  date : String
deriving DecidableEq

/-- The `Omit<Expense, id>` update payload of `handleEditExpense`. -/
structure ExpenseInput where
  amount : ℚ
  category : String
  date : String
deriving DecidableEq

/-- One point of the client daily chart: `{date, amount}`. -/
structure DayPoint where
  date : String
  amount : ℚ
deriving DecidableEq

/-- Sum of client expense amounts. -/
def sumClient (l : List ClientExpense) : ℚ := (l.map (·.amount)).sum

/-- The seven day keys of the client chart (App.tsx lines 165-169): for
i = 0..6 the date string of the day `6 - i` days before today, so oldest
first and the last entry is today.  `dayStr` abstracts the external
`toISOString().split(T)[0]` rendering of a day number as a date string. -/
def last7Days (dayStr : ℤ → String) (today : ℤ) : List String :=
  (List.range 7).map (fun i : ℕ => dayStr (today - (6 - (i : ℤ))))

/-- The `dailySpending` series of App.tsx lines 171-178 (identically the
`dailyData` of the spending-trends modal, lines 57-71): per-day totals by
exact string match on the date field.  `labelOf` abstracts the external
locale formatting of the chart label from the day key. -/
def dailySpending (dayStr : ℤ → String) (labelOf : String → String) (today : ℤ)
    (l : List ClientExpense) : List DayPoint :=
  (last7Days dayStr today).map (fun key =>
    { date := labelOf key,
      amount := ((l.filter (fun e => decide (e.date = key))).map (·.amount)).sum })

/-- The `avgPerDay` of the spending-trends modal (line 76):
`totalSpent / (expenses.length > 0 ? 7 : 1)`. -/
def avgPerDay (l : List ClientExpense) : Option ℚ :=
  jsDiv (sumClient l) (if 0 < l.length then 7 else 1)

/-- Client category keys in first-appearance order, as produced by the
string-keyed `categorySpending` accumulator of the spending-trends modal
(lines 44-50). -/
def clientKeys : List ClientExpense → List String
  | [] => []
  | e :: t => e.category :: (clientKeys t).filter (fun c => decide (c ≠ e.category))

/-- The amount accumulated for one client category (lines 44-50). -/
def clientCatAmount (l : List ClientExpense) (c : String) : ℚ :=
  ((l.filter (fun e => decide (e.category = c))).map (·.amount)).sum

/-- One `{category, amount}` item of the modal's `categoryData`. -/
structure ClientCategoryPoint where
  category : String
  amount : ℚ
deriving DecidableEq

/-- One item of the modal's `pieData`: the `categoryData` item together
with its percentage.  The source renders the percentage with `toFixed(1)`;
that formatting is presentational and not modelled — `none` models the
NaN string produced when the grand total is 0, and a finite value is kept
exact. -/
structure ClientPiePoint where
  category : String
  amount : ℚ
  percentage : Option ℚ
deriving DecidableEq

/-- The `categoryData` of the spending-trends modal (lines 52-55):
per-category amounts sorted by amount descending (stable sort). -/
def categoryData (l : List ClientExpense) : List ClientCategoryPoint :=
  sortDescBy ClientCategoryPoint.amount
    ((clientKeys l).map (fun c => { category := c, amount := clientCatAmount l c }))

/-- The `pieData` of the spending-trends modal (lines 79-82):
`percentage: ((item.amount / totalSpent) * 100).toFixed(1)` — note the
division by the grand total is unguarded in the source. -/
def pieData (l : List ClientExpense) : List ClientPiePoint :=
  (categoryData l).map (fun item =>
    { category := item.category, amount := item.amount,
      percentage := (jsDiv item.amount (sumClient l)).map (fun q => q * 100) })

/-- The dashboard week-over-week `percentChange` of App.tsx lines 180-194:
this week's total summed from the 7-day daily series, last week's total
summed over the expenses whose parsed date lies in the preceding 7-day
interval, and the same guarded change expression as the server
(`lastWeekTotal > 0 ? ((thisWeekTotal - lastWeekTotal) / lastWeekTotal) *
100 : 0`, embedded by `changePct`).  `parseDate` abstracts
`new Date(e.date)` as an epoch-millisecond instant. -/
def clientPercentChange (dayStr : ℤ → String) (labelOf : String → String)
    (parseDate : String → ℤ) (now today : ℤ) (l : List ClientExpense) : Option ℚ :=
  changePct (((dailySpending dayStr labelOf today l).map (·.amount)).sum)
    (((l.filter (fun e => decide (now - 14 * dayMs ≤ parseDate e.date ∧
      parseDate e.date < now - 7 * dayMs))).map (·.amount)).sum)

/-- The `handleEditExpense` handler of App.tsx lines 138-140:
`expenses.map(exp => exp.id === id ? { ...updatedExpense, id } : exp)`. -/
def handleEditExpense (expenses : List ClientExpense) (id : String)
    (u : ExpenseInput) : List ClientExpense :=
  expenses.map (fun exp =>
    if exp.id = id then
      { id := id, amount := u.amount, category := u.category, date := u.date }
    else exp)

/-! ### Properties of the stable descending sort -/

theorem mem_insertDescBy {key : α → ℚ} {x z : α} :
    ∀ {l : List α}, z ∈ insertDescBy key x l ↔ z = x ∨ z ∈ l
  | [] => by simp [insertDescBy]
  | y :: ys => by
    unfold insertDescBy
    by_cases h : key y ≤ key x
    · simp [h]
    · simp only [if_neg h, List.mem_cons, mem_insertDescBy]
      tauto

theorem perm_insertDescBy (key : α → ℚ) (x : α) :
    ∀ l : List α, List.Perm (insertDescBy key x l) (x :: l)
  | [] => List.Perm.refl _
  | y :: ys => by
    unfold insertDescBy
    by_cases h : key y ≤ key x
    · rw [if_pos h]
    · rw [if_neg h]
      exact ((perm_insertDescBy key x ys).cons y).trans (List.Perm.swap x y ys)

theorem perm_sortDescBy (key : α → ℚ) :
    ∀ l : List α, List.Perm (sortDescBy key l) l
  | [] => List.Perm.refl _
  | x :: xs =>
    (perm_insertDescBy key x (sortDescBy key xs)).trans
      ((perm_sortDescBy key xs).cons x)

theorem pairwise_insertDescBy (key : α → ℚ) (ix : α → ℕ) (x : α) :
    ∀ {l : List α},
      l.Pairwise (fun a b => key b < key a ∨ (key a = key b ∧ ix a < ix b)) →
      (∀ y ∈ l, ix x < ix y) →
      (insertDescBy key x l).Pairwise
        (fun a b => key b < key a ∨ (key a = key b ∧ ix a < ix b))
  | [], _, _ => List.pairwise_singleton _ _
  | y :: ys, hl, hx => by
    unfold insertDescBy
    by_cases h : key y ≤ key x
    · rw [if_pos h]
      refine List.Pairwise.cons (fun z hz => ?_) hl
      rcases List.mem_cons.mp hz with hzy | hzys
      · subst hzy
        rcases lt_or_eq_of_le h with hlt | heq
        · exact Or.inl hlt
        · exact Or.inr ⟨heq.symm, hx z (List.mem_cons_self _ _)⟩
      · have hyz := List.rel_of_pairwise_cons hl hzys
        rcases hyz with hlt | ⟨heq, _⟩
        · exact Or.inl (lt_of_lt_of_le hlt h)
        · have hzx : key z ≤ key x := le_trans (le_of_eq heq.symm) h
          rcases lt_or_eq_of_le hzx with hlt | heq2
          · exact Or.inl hlt
          · exact Or.inr ⟨heq2.symm, hx z (List.mem_cons_of_mem _ hzys)⟩
    · rw [if_neg h]
      have hxy : key x < key y := lt_of_not_le h
      refine List.Pairwise.cons (fun z hz => ?_)
        (pairwise_insertDescBy key ix x hl.of_cons
          (fun y hy => hx y (List.mem_cons_of_mem _ hy)))
      rcases (@mem_insertDescBy α key x z ys).mp hz with hzx | hzys
      · subst hzx; exact Or.inl hxy
      · exact List.rel_of_pairwise_cons hl hzys

theorem pairwise_sortDescBy (key : α → ℚ) (ix : α → ℕ) :
    ∀ {l : List α}, l.Pairwise (fun a b => ix a < ix b) →
      (sortDescBy key l).Pairwise
        (fun a b => key b < key a ∨ (key a = key b ∧ ix a < ix b))
  | [], _ => List.Pairwise.nil
  | x :: xs, h => by
    unfold sortDescBy
    refine pairwise_insertDescBy key ix x (pairwise_sortDescBy key ix h.of_cons)
      (fun y hy => ?_)
    exact List.rel_of_pairwise_cons h
      (((perm_sortDescBy key xs).mem_iff).mp hy)

/-! ### Positions recorded by the enumeration -/

theorem le_fst_of_mem_enumFrom {p : ℕ × Expense} :
    ∀ {n : ℕ} {l : List Expense}, p ∈ l.enumFrom n → n ≤ p.1 := by
  intro n l
  induction l generalizing n with
  | nil => intro h; simp [List.enumFrom] at h
  | cons x xs ih =>
    intro h
    rcases List.mem_cons.mp h with h1 | h2
    · subst h1; exact le_refl _
    · exact Nat.le_of_succ_le (ih h2)

theorem pairwise_fst_enumFrom :
    ∀ (l : List Expense) (n : ℕ),
      (l.enumFrom n).Pairwise (fun a b => a.1 < b.1)
  | [], _ => List.Pairwise.nil
  | x :: xs, n => by
    refine List.Pairwise.cons (fun q hq => ?_) (pairwise_fst_enumFrom xs (n + 1))
    exact Nat.lt_of_succ_le (le_fst_of_mem_enumFrom hq)

theorem pairwise_pos_txnsOf (l : List Expense) (c : String) :
    (txnsOf l c).Pairwise (fun a b => a.pos < b.pos) := by
  unfold txnsOf
  rw [List.pairwise_map]
  exact (pairwise_fst_enumFrom l 0).filter _

/-! ### The category keys cover the list without repetition -/

theorem keys_nodup : ∀ l : List Expense, (keys l).Nodup
  | [] => List.nodup_nil
  | e :: t => by
    refine List.Pairwise.cons (fun c hc => ?_) ((keys_nodup t).filter _)
    intro hce
    rw [List.mem_filter] at hc
    have := hc.2
    simp [hce] at this

theorem mem_keys_of_mem : ∀ {l : List Expense} {x : Expense},
    x ∈ l → x.category ∈ keys l
  | e :: t, x, hx => by
    rcases List.mem_cons.mp hx with h1 | h2
    · subst h1; exact List.mem_cons_self _ _
    · by_cases hc : x.category = e.category
      · rw [hc]; exact List.mem_cons_self _ _
      · exact List.mem_cons_of_mem _
          (List.mem_filter.mpr ⟨mem_keys_of_mem h2, by simp [hc]⟩)

/-! ### Summation over the category keys -/

theorem sum_map_zero (ks : List String) : (ks.map (fun _ => (0 : ℚ))).sum = 0 := by
  induction ks with
  | nil => rfl
  | cons k ks ih => simp [ih]

theorem sum_map_add (ks : List String) (f g : String → ℚ) :
    (ks.map (fun c => f c + g c)).sum = (ks.map f).sum + (ks.map g).sum := by
  induction ks with
  | nil => simp
  | cons k ks ih => simp [ih]; ring

theorem sum_map_mul_const (ks : List String) (f : String → ℚ) (r : ℚ) :
    (ks.map (fun c => f c * r)).sum = (ks.map f).sum * r := by
  induction ks with
  | nil => simp
  | cons k ks ih => simp [ih]; ring

theorem sum_map_ite_zero {x : String} (ks : List String) (a : ℚ) (hx : x ∉ ks) :
    (ks.map (fun c => if x = c then a else 0)).sum = 0 := by
  induction ks with
  | nil => rfl
  | cons k ks ih =>
    have hxk : x ≠ k := fun h => hx (h ▸ List.mem_cons_self _ _)
    have hxs : x ∉ ks := fun h => hx (List.mem_cons_of_mem _ h)
    simp [hxk, ih hxs]

theorem sum_map_ite_single {x : String} (ks : List String) (a : ℚ)
    (hmem : x ∈ ks) (hnd : ks.Nodup) :
    (ks.map (fun c => if x = c then a else 0)).sum = a := by
  induction ks with
  | nil => simp at hmem
  | cons k ks ih =>
    rcases List.mem_cons.mp hmem with h1 | h2
    · subst h1
      have hxs : x ∉ ks := (List.nodup_cons.mp hnd).1
      simp [sum_map_ite_zero ks a hxs]
    · have hxk : x ≠ k := by
        intro h
        exact (List.nodup_cons.mp hnd).1 (h ▸ h2)
      simp [hxk, ih h2 (List.nodup_cons.mp hnd).2]

theorem sumAmounts_catFilter_cons (e : Expense) (t : List Expense) (c : String) :
    sumAmounts (catFilter (e :: t) c) =
      (if e.category = c then e.amount else 0) + sumAmounts (catFilter t c) := by
  by_cases h : e.category = c <;> simp [catFilter, sumAmounts, List.filter_cons, h]

theorem sum_over_keys (ks : List String) (hnd : ks.Nodup) :
    ∀ l : List Expense, (∀ e ∈ l, e.category ∈ ks) →
      (ks.map (fun c => sumAmounts (catFilter l c))).sum = sumAmounts l
  | [], _ => by
    have h : (fun c => sumAmounts (catFilter ([] : List Expense) c)) =
        fun _ : String => (0 : ℚ) := by
      funext c; simp [catFilter, sumAmounts]
    rw [h, sum_map_zero]
    simp [sumAmounts]
  | e :: t, hcov => by
    have hstep : (fun c => sumAmounts (catFilter (e :: t) c)) =
        fun c => (if e.category = c then e.amount else 0) + sumAmounts (catFilter t c) := by
      funext c; exact sumAmounts_catFilter_cons e t c
    rw [hstep, sum_map_add, sum_map_ite_single ks e.amount
      (hcov e (List.mem_cons_self _ _)) hnd,
      sum_over_keys ks hnd t (fun x hx => hcov x (List.mem_cons_of_mem _ hx))]
    simp [sumAmounts]

/-- Any entry of the categories response is the entry built for some key. -/
theorem mem_categoryReport {l : List Expense} {entry : CategoryEntry}
    (h : entry ∈ (categoryReport l).categories) :
    ∃ c, entry = entryOf l c := by
  have h2 : entry ∈ (keys l).map (entryOf l) :=
    ((perm_sortDescBy CategoryEntry.total _).mem_iff).mp h
  rcases List.mem_map.mp h2 with ⟨c, _, hc⟩
  exact ⟨c, hc.symm⟩

/-- The entry built for every occurring key is in the categories response. -/
theorem entryOf_mem_categoryReport (l : List Expense) (c : String)
    (hc : c ∈ keys l) : entryOf l c ∈ (categoryReport l).categories :=
  ((perm_sortDescBy CategoryEntry.total _).mem_iff).mpr
    (List.mem_map_of_mem _ hc)

/-! ### Facts about the guarded change percentage -/

theorem changePct_of_pos {cur prior : ℚ} (h : 0 < prior) :
    changePct cur prior = some ((cur - prior) / prior * 100) := by
  unfold changePct jsDiv
  rw [if_pos h, if_neg (ne_of_gt h)]
  rfl

theorem changePct_of_zero (cur : ℚ) : changePct cur 0 = some 0 := by
  simp [changePct]

theorem changePct_isSome (cur prior : ℚ) : (changePct cur prior).isSome = true := by
  unfold changePct
  by_cases h : 0 < prior
  · rw [if_pos h]
    unfold jsDiv
    rw [if_neg (ne_of_gt h)]
    rfl
  · rw [if_neg h]; rfl

/-! ### Projection equations for the budget status evaluator -/

theorem statusOf_budget (som sow : ℤ) (l : List Expense) (b : Budget) :
    (statusOf som sow l b).budget = b := rfl

theorem statusOf_spent (som sow : ℤ) (l : List Expense) (b : Budget) :
    (statusOf som sow l b).spent = sumAmounts (l.filter (fun e =>
      matchesBudget b e && decide (periodStart som sow b ≤ e.ts))) := rfl

/-! ### Concrete inputs used by the witnesses

The two commands below let `decide` evaluate the embedded functions on the
concrete witness inputs: the rational operations are marked irreducible in
the library for performance, which blocks that evaluation; inside this
section they are restored to ordinary definitional transparency. -/

section

set_option allowUnsafeReducibility true

attribute [local semireducible] Rat.add Rat.sub Rat.mul Rat.inv

/-- The worked example of the specification, section 8. -/
def exExpenses : List Expense :=
  [⟨50, "Food", "a", "2024-01-01", 0⟩, ⟨30, "Food", "b", "2024-01-02", 0⟩,
   ⟨20, "Transport", "c", "2024-01-01", 0⟩]

/-- A list whose only expense has amount 0, so the grand total is 0. -/
def zeroExpenses : List Expense := [⟨0, "Food", "z", "2024-01-01", 0⟩]

/-- A reference instant: 1000 ms past midnight of day 17 (1970-01-18, a
Sunday, so its weekday index is 0). -/
def wNow : ℤ := 17 * dayMs + 1000

/-- Expenses placed in the current week, the prior week and the prior month
of `wNow`. -/
def wExpenses : List Expense :=
  [⟨5, "Food", "a", "d1", 12 * dayMs⟩, ⟨7, "Food", "b", "d2", -5 * dayMs⟩,
   ⟨3, "Food", "c", "d3", 17 * dayMs + 500⟩]

def wBudget : Budget := ⟨"Food", 100, "monthly"⟩

def wBudgetTotal : Budget := ⟨"Total", 100, "weekly"⟩

def wBudgetExpenses : List Expense := [⟨30, "Food", "d", "x", 5⟩]

def wStatus : BudgetStatus :=
  statusOf (budgetMonthStart 0) (startOfWeekBudgets 0) wBudgetExpenses wBudget

def wStatusTotal : BudgetStatus :=
  statusOf (budgetMonthStart 0) (startOfWeekBudgets 0) wBudgetExpenses wBudgetTotal

/-- A client expense list with a strictly positive grand total. -/
def wClientExpenses : List ClientExpense := [⟨"1", 50, "Food", "2024-01-01"⟩]

/-! ### The claims -/

/-- C2: for the week and month trend windows, the change percentage equals
(current − prior) / prior × 100 whenever the prior-period total is strictly
positive, equals 0 whenever the prior-period total is 0 (for any current
total), and is in every case a defined value: no arithmetic error is
raised. -/
theorem trends_change_spec (l : List Expense) (now : ℤ) :
    (0 < (trends l now).week.last →
      (trends l now).week.change =
        some (((trends l now).week.current - (trends l now).week.last) /
          (trends l now).week.last * 100)) ∧
    ((trends l now).week.last = 0 → (trends l now).week.change = some 0) ∧
    (0 < (trends l now).month.last →
      (trends l now).month.change =
        some (((trends l now).month.current - (trends l now).month.last) /
          (trends l now).month.last * 100)) ∧
    ((trends l now).month.last = 0 → (trends l now).month.change = some 0) ∧
    (trends l now).week.change.isSome = true ∧
    (trends l now).month.change.isSome = true := by
  have hw : (trends l now).week.change =
      changePct (trends l now).week.current (trends l now).week.last := rfl
  have hm : (trends l now).month.change =
      changePct (trends l now).month.current (trends l now).month.last := rfl
  refine ⟨fun h => ?_, fun h => ?_, fun h => ?_, fun h => ?_, ?_, ?_⟩
  · rw [hw, changePct_of_pos h]
  · rw [hw, h, changePct_of_zero]
  · rw [hm, changePct_of_pos h]
  · rw [hm, h, changePct_of_zero]
  · rw [hw]; exact changePct_isSome _ _
  · rw [hm]; exact changePct_isSome _ _

/-- Witness for C2 at concrete inputs: positive prior totals in both
windows, and the empty list for the zero-prior cases. -/
theorem trends_change_spec_witness :
    (trends wExpenses wNow).week.change =
      some (((trends wExpenses wNow).week.current - (trends wExpenses wNow).week.last) /
        (trends wExpenses wNow).week.last * 100) ∧
    (trends wExpenses wNow).month.change =
      some (((trends wExpenses wNow).month.current - (trends wExpenses wNow).month.last) /
        (trends wExpenses wNow).month.last * 100) ∧
    (trends [] wNow).week.change = some 0 ∧
    (trends [] wNow).month.change = some 0 :=
  ⟨(trends_change_spec wExpenses wNow).1 (by decide),
   (trends_change_spec wExpenses wNow).2.2.1 (by decide),
   (trends_change_spec [] wNow).2.1 (by decide),
   (trends_change_spec [] wNow).2.2.2.1 (by decide)⟩

/-- C4: each category entry's percentage equals total / grand total × 100
when the grand total is strictly positive, and equals 0 when the grand
total is 0. -/
theorem categoryReport_percentage_spec (l : List Expense) (entry : CategoryEntry)
    (h : entry ∈ (categoryReport l).categories) :
    (0 < (categoryReport l).totalSpent →
      entry.percentage = some (entry.total / (categoryReport l).totalSpent * 100)) ∧
    ((categoryReport l).totalSpent = 0 → entry.percentage = some 0) := by
  obtain ⟨c, rfl⟩ := mem_categoryReport h
  have hp : (entryOf l c).percentage =
      if 0 < totalSpent l then
        (jsDiv (sumAmounts (catFilter l c)) (totalSpent l)).map (fun q => q * 100)
      else some 0 := rfl
  have ht : (entryOf l c).total = sumAmounts (catFilter l c) := rfl
  have hT : (categoryReport l).totalSpent = totalSpent l := rfl
  constructor
  · intro hpos
    rw [hT] at hpos ⊢
    rw [hp, if_pos hpos, ht]
    unfold jsDiv
    rw [if_neg (ne_of_gt hpos)]
    rfl
  · intro h0
    rw [hT] at h0
    rw [hp, h0]
    simp

/-- Witness for C4: the specification's worked example (grand total 100)
and a single zero-amount expense (grand total 0). -/
theorem categoryReport_percentage_witness :
    (entryOf exExpenses "Food").percentage =
      some ((entryOf exExpenses "Food").total /
        (categoryReport exExpenses).totalSpent * 100) ∧
    (entryOf zeroExpenses "Food").percentage = some 0 :=
  ⟨(categoryReport_percentage_spec exExpenses (entryOf exExpenses "Food")
      (by decide)).1 (by decide),
   (categoryReport_percentage_spec zeroExpenses (entryOf zeroExpenses "Food")
      (by decide)).2 (by decide)⟩

/-- C6: the daily series always has exactly 7 entries, ordered oldest to
newest with the last entry being today; the i-th amount is the sum of the
expenses whose date string equals the i-th day key (exact string
equality), and an empty expense list yields all-zero amounts. -/
theorem dailySpending_spec (dayStr : ℤ → String) (labelOf : String → String)
    (today : ℤ) (l : List ClientExpense) :
    (dailySpending dayStr labelOf today l).length = 7 ∧
    (∀ i : ℕ, (dailySpending dayStr labelOf today l).get? i =
      if i < 7 then
        some { date := labelOf (dayStr (today - (6 - (i : ℤ)))),
               amount := ((l.filter (fun e =>
                 decide (e.date = dayStr (today - (6 - (i : ℤ)))))).map (·.amount)).sum }
      else none) ∧
    (l = [] → ∀ p ∈ dailySpending dayStr labelOf today l, p.amount = 0) := by
  have hlen : (dailySpending dayStr labelOf today l).length = 7 := by
    unfold dailySpending last7Days
    rw [List.length_map, List.length_map, List.length_range]
  refine ⟨hlen, ?_, ?_⟩
  · intro i
    by_cases hi : i < 7
    · rw [if_pos hi]
      unfold dailySpending last7Days
      rw [List.get?_map, List.get?_map, List.get?_range hi]
      rfl
    · rw [if_neg hi]
      rw [List.get?_eq_none, hlen]
      omega
  · intro hl p hp
    subst hl
    rcases List.mem_map.mp hp with ⟨key, _, rfl⟩
    simp

/-- Witness for C6: the empty expense list with a constant day renderer;
every produced amount is 0. -/
theorem dailySpending_spec_witness : (⟨"d", (0 : ℚ)⟩ : DayPoint).amount = 0 :=
  (dailySpending_spec (fun _ => "d") (fun s => s) 0 []).2.2 rfl ⟨"d", 0⟩ (by decide)

/-- C7: every budget status entry satisfies remaining = limit − spent
exactly, isOverBudget holds iff spent exceeds the limit, and spent is the
sum of the amounts of the matching expenses in the budget's period
window. -/
theorem budgetStatus_spec (now : ℤ) (budgets : List Budget) (l : List Expense)
    (st : BudgetStatus) (h : st ∈ budgetStatusAt now budgets l) :
    st.remaining = st.budget.limit - st.spent ∧
    (st.isOverBudget = true ↔ st.budget.limit < st.spent) ∧
    st.spent = sumAmounts (l.filter (fun e => matchesBudget st.budget e &&
      decide (periodStart (budgetMonthStart now) (startOfWeekBudgets now)
        st.budget ≤ e.ts))) := by
  rcases List.mem_map.mp h with ⟨b, _, rfl⟩
  refine ⟨rfl, ?_, rfl⟩
  simp [statusOf]

/-- Witness for C7 at a concrete budget and expense list. -/
theorem budgetStatus_spec_witness :
    wStatus.remaining = wStatus.budget.limit - wStatus.spent ∧
    (wStatus.isOverBudget = true ↔ wStatus.budget.limit < wStatus.spent) ∧
    wStatus.spent = sumAmounts (wBudgetExpenses.filter (fun e =>
      matchesBudget wStatus.budget e &&
      decide (periodStart (budgetMonthStart 0) (startOfWeekBudgets 0)
        wStatus.budget ≤ e.ts))) :=
  budgetStatus_spec 0 [wBudget] wBudgetExpenses wStatus (by decide)

/-- C8: a budget of category Total counts every expense of the user inside
the period window, and any other budget counts exactly the expenses whose
category equals the budget's category. -/
theorem budgetStatus_categoryFilter_spec (now : ℤ) (budgets : List Budget)
    (l : List Expense) (st : BudgetStatus) (h : st ∈ budgetStatusAt now budgets l) :
    (st.budget.category = "Total" →
      st.spent = sumAmounts (l.filter (fun e =>
        decide (periodStart (budgetMonthStart now) (startOfWeekBudgets now)
          st.budget ≤ e.ts)))) ∧
    (st.budget.category ≠ "Total" →
      st.spent = sumAmounts (l.filter (fun e =>
        decide (e.category = st.budget.category ∧
          periodStart (budgetMonthStart now) (startOfWeekBudgets now)
            st.budget ≤ e.ts)))) := by
  rcases List.mem_map.mp h with ⟨b, _, rfl⟩
  rw [statusOf_budget, statusOf_spent]
  constructor
  · intro hc
    congr 1
    apply List.filter_congr
    intro e _
    simp [matchesBudget, hc]
  · intro hc
    congr 1
    apply List.filter_congr
    intro e _
    simp [matchesBudget, hc]

/-- Witness for C8: a Total budget and an ordinary category budget. -/
theorem budgetStatus_categoryFilter_witness :
    wStatusTotal.spent = sumAmounts (wBudgetExpenses.filter (fun e =>
      decide (periodStart (budgetMonthStart 0) (startOfWeekBudgets 0)
        wStatusTotal.budget ≤ e.ts))) ∧
    wStatus.spent = sumAmounts (wBudgetExpenses.filter (fun e =>
      decide (e.category = wStatus.budget.category ∧
        periodStart (budgetMonthStart 0) (startOfWeekBudgets 0)
          wStatus.budget ≤ e.ts))) :=
  ⟨(budgetStatus_categoryFilter_spec 0 [wBudgetTotal] wBudgetExpenses wStatusTotal
      (by decide)).1 (by decide),
   (budgetStatus_categoryFilter_spec 0 [wBudget] wBudgetExpenses wStatus
      (by decide)).2 (by decide)⟩

/-- C10: handleEditExpense preserves length and order; the expense at each
position is replaced — fields taken from the update, id kept equal to its
original id — exactly when its id matches, and is unchanged otherwise. -/
theorem handleEditExpense_spec (expenses : List ClientExpense) (id : String)
    (u : ExpenseInput) :
    (handleEditExpense expenses id u).length = expenses.length ∧
    ∀ i : ℕ, (handleEditExpense expenses id u).get? i =
      (expenses.get? i).map (fun e =>
        if e.id = id then
          { id := e.id, amount := u.amount, category := u.category, date := u.date }
        else e) := by
  constructor
  · simp [handleEditExpense]
  · intro i
    unfold handleEditExpense
    rw [List.get?_map]
    have hfun : (fun exp : ClientExpense =>
        if exp.id = id then
          ({ id := id, amount := u.amount, category := u.category,
             date := u.date } : ClientExpense)
        else exp) =
        fun e : ClientExpense =>
          if e.id = id then
            { id := e.id, amount := u.amount, category := u.category, date := u.date }
          else e := by
      funext e
      by_cases h : e.id = id
      · simp [h]
      · simp [h]
    rw [hfun]

/-- C1: the per-category totals of the categories response sum to
totalSpent, and when totalSpent is strictly positive the per-category
percentages sum to exactly 100 (the rational model computes the division
exactly, so the identity holds with no rounding error at all). -/
theorem categoryReport_sums_spec (l : List Expense) :
    ((categoryReport l).categories.map CategoryEntry.total).sum =
      (categoryReport l).totalSpent ∧
    (0 < (categoryReport l).totalSpent →
      ((categoryReport l).categories.map (fun e => e.percentage.getD 0)).sum = 100) := by
  have hperm : List.Perm (sortDescBy CategoryEntry.total ((keys l).map (entryOf l)))
      ((keys l).map (entryOf l)) := perm_sortDescBy _ _
  constructor
  · have h1 : ((categoryReport l).categories.map CategoryEntry.total).sum =
        (((keys l).map (entryOf l)).map CategoryEntry.total).sum :=
      (hperm.map CategoryEntry.total).sum_eq
    rw [h1, List.map_map]
    have h2 : (CategoryEntry.total ∘ entryOf l) =
        fun c => sumAmounts (catFilter l c) := rfl
    rw [h2, sum_over_keys (keys l) (keys_nodup l) l (fun e he => mem_keys_of_mem he)]
    rfl
  · intro hT
    have hTs : (categoryReport l).totalSpent = totalSpent l := rfl
    rw [hTs] at hT
    have hTne : totalSpent l ≠ 0 := ne_of_gt hT
    have h1 : ((categoryReport l).categories.map (fun e => e.percentage.getD 0)).sum =
        (((keys l).map (entryOf l)).map (fun e => e.percentage.getD 0)).sum :=
      (hperm.map _).sum_eq
    rw [h1, List.map_map]
    have h2 : ((fun e : CategoryEntry => e.percentage.getD 0) ∘ entryOf l) =
        fun c => sumAmounts (catFilter l c) * (100 / totalSpent l) := by
      funext c
      show ((entryOf l c).percentage).getD 0 = _
      have hp : (entryOf l c).percentage =
          (jsDiv (sumAmounts (catFilter l c)) (totalSpent l)).map (fun q => q * 100) := by
        show (if 0 < totalSpent l then
          (jsDiv (sumAmounts (catFilter l c)) (totalSpent l)).map (fun q => q * 100)
          else some 0) = _
        rw [if_pos hT]
      rw [hp]
      unfold jsDiv
      rw [if_neg hTne]
      show sumAmounts (catFilter l c) / totalSpent l * 100 = _
      ring
    rw [h2, sum_map_mul_const (keys l) _ (100 / totalSpent l),
      sum_over_keys (keys l) (keys_nodup l) l (fun e he => mem_keys_of_mem he)]
    have hs : totalSpent l = sumAmounts l := rfl
    rw [hs] at hTne ⊢
    field_simp

/-- Witness for C1 at the specification's worked example, whose grand total
100 is strictly positive. -/
theorem categoryReport_sums_witness :
    ((categoryReport exExpenses).categories.map (fun e => e.percentage.getD 0)).sum = 100 :=
  (categoryReport_sums_spec exExpenses).2 (by decide)

/-- C3: each category's topExpenses has length at most 5 and is sorted by
amount descending, ties between equal amounts keeping the transactions in
their original input order (`pos` records the input position). -/
theorem categoryReport_topExpenses_spec (l : List Expense) (entry : CategoryEntry)
    (h : entry ∈ (categoryReport l).categories) :
    entry.topExpenses.length ≤ 5 ∧
    entry.topExpenses.Pairwise (fun a b => b.amount ≤ a.amount) ∧
    entry.topExpenses.Pairwise (fun a b =>
      b.amount < a.amount ∨ (a.amount = b.amount ∧ a.pos < b.pos)) := by
  obtain ⟨c, rfl⟩ := mem_categoryReport h
  have htop : (entryOf l c).topExpenses =
      (sortDescBy Txn.amount (txnsOf l c)).take 5 := rfl
  have hsorted := pairwise_sortDescBy Txn.amount Txn.pos (pairwise_pos_txnsOf l c)
  have htake : ((sortDescBy Txn.amount (txnsOf l c)).take 5).Pairwise
      (fun a b => b.amount < a.amount ∨ (a.amount = b.amount ∧ a.pos < b.pos)) :=
    hsorted.sublist (List.take_sublist 5 _)
  refine ⟨?_, ?_, ?_⟩
  · rw [htop, List.length_take]
    exact min_le_left _ _
  · rw [htop]
    refine htake.imp ?_
    intro a b hab
    rcases hab with h1 | ⟨h1, _⟩
    · exact le_of_lt h1
    · exact le_of_eq h1.symm
  · rw [htop]
    exact htake

/-- Witness for C3 at the specification's worked example. -/
theorem categoryReport_topExpenses_witness :
    (entryOf exExpenses "Food").topExpenses.length ≤ 5 ∧
    (entryOf exExpenses "Food").topExpenses.Pairwise (fun a b => b.amount ≤ a.amount) ∧
    (entryOf exExpenses "Food").topExpenses.Pairwise (fun a b =>
      b.amount < a.amount ∨ (a.amount = b.amount ∧ a.pos < b.pos)) :=
  categoryReport_topExpenses_spec exExpenses (entryOf exExpenses "Food")
    (entryOf_mem_categoryReport exExpenses "Food" (by decide))

/-- C5: the trend calculator's current-week window starts at the most
recent day-index-0 midnight (a day boundary, weekday index 0, not after
now, and maximal among such instants), inclusive; the prior-week window is
the preceding 7-day interval excluding that start instant; and the week
totals are exactly the sums of the expenses falling in those windows. -/
theorem trends_week_window_spec (l : List Expense) (now : ℤ) :
    (startOfWeekTrends now ≤ now ∧
     dayMs ∣ startOfWeekTrends now ∧
     weekday (startOfWeekTrends now) = 0) ∧
    (∀ s : ℤ, s ≤ now → dayMs ∣ s → weekday s = 0 → s ≤ startOfWeekTrends now) ∧
    (trends l now).week.current = sumAmounts (l.filter (fun e =>
      decide (startOfWeekTrends now ≤ e.ts))) ∧
    (trends l now).week.last = sumAmounts (l.filter (fun e =>
      decide (startOfWeekTrends now - 7 * dayMs ≤ e.ts ∧
        e.ts < startOfWeekTrends now))) := by
  refine ⟨⟨?_, ?_, ?_⟩, ?_, rfl, rfl⟩
  · simp only [startOfWeekTrends, weekday, dayNumber, dayMs]
    omega
  · simp only [startOfWeekTrends, weekday, dayNumber, dayMs]
    omega
  · simp only [startOfWeekTrends, weekday, dayNumber, dayMs]
    omega
  · intro s hs hdvd hwd
    simp only [weekday, dayNumber, dayMs] at hwd
    simp only [startOfWeekTrends, weekday, dayNumber, dayMs]
    simp only [dayMs] at hdvd
    omega

/-- Witness for C5: at 1000 ms past a Sunday midnight, that midnight is not
later than the computed week start (obtained from the maximality part with
all hypotheses discharged at concrete values). -/
theorem trends_week_window_witness :
    (17 : ℤ) * dayMs ≤ startOfWeekTrends (17 * dayMs + 1000) :=
  (trends_week_window_spec [] (17 * dayMs + 1000)).2.1 (17 * dayMs)
    (by decide) ⟨17, by decide⟩ (by decide)

/-- C9 counterexample: two produced percentages are not defined finite
values (`none` models the non-finite Infinity/NaN of the JavaScript
division by zero).  The budget evaluator divides by the limit with no
guard, so a budget of limit 0 with a matching expense yields a non-finite
budget percentage; and the client pie chart divides by the grand total
with no guard, so a nonempty expense list whose amounts sum to 0 yields a
non-finite category percentage. -/
theorem budgetStatus_percentage_limit_zero :
    ((budgetStatusAt 0 [⟨"Food", 0, "monthly"⟩]
      [⟨5, "Food", "d", "2024-01-01", 10⟩]).map BudgetStatus.percentage) = [none] ∧
    ((pieData [⟨"1", 0, "Food", "2024-01-01"⟩]).map ClientPiePoint.percentage) =
      [none] :=
  ⟨by decide, by decide⟩

/-- C9 (amended): the change percentages (server trends and the client
dashboard change), the server category percentages, the per-transaction
averages and the per-day average are defined finite values for every
input; the client pie-chart category percentage is a defined finite value
whenever the grand total is nonzero, and the budget percentage whenever
the budget's limit is nonzero (the unguarded divisions yield non-finite
values at a zero grand total and at a zero limit, as the counterexample
shows). -/
theorem aggregation_division_fallbacks (l : List Expense) (cl : List ClientExpense)
    (now today : ℤ) (budgets : List Budget) (dayStr : ℤ → String)
    (labelOf : String → String) (parseDate : String → ℤ) :
    (trends l now).week.change.isSome = true ∧
    (trends l now).month.change.isSome = true ∧
    (clientPercentChange dayStr labelOf parseDate now today cl).isSome = true ∧
    (∀ entry ∈ (categoryReport l).categories,
      entry.percentage.isSome = true ∧ entry.avgPerTransaction.isSome = true) ∧
    (avgPerDay cl).isSome = true ∧
    (∀ p ∈ pieData cl, sumClient cl ≠ 0 → p.percentage.isSome = true) ∧
    (∀ st ∈ budgetStatusAt now budgets l,
      st.budget.limit ≠ 0 → st.percentage.isSome = true) := by
  refine ⟨?_, ?_, ?_, ?_, ?_, ?_, ?_⟩
  · have hw : (trends l now).week.change =
        changePct (trends l now).week.current (trends l now).week.last := rfl
    rw [hw]
    exact changePct_isSome _ _
  · have hm : (trends l now).month.change =
        changePct (trends l now).month.current (trends l now).month.last := rfl
    rw [hm]
    exact changePct_isSome _ _
  · exact changePct_isSome _ _
  · intro entry h
    obtain ⟨c, rfl⟩ := mem_categoryReport h
    constructor
    · show (if 0 < totalSpent l then
          (jsDiv (sumAmounts (catFilter l c)) (totalSpent l)).map (fun q => q * 100)
          else some 0).isSome = true
      by_cases hT : 0 < totalSpent l
      · rw [if_pos hT]
        unfold jsDiv
        rw [if_neg (ne_of_gt hT)]
        rfl
      · rw [if_neg hT]
        rfl
    · show (if 0 < (catFilter l c).length then
          jsDiv (sumAmounts (catFilter l c)) ((catFilter l c).length : ℚ)
          else some 0).isSome = true
      by_cases hn : 0 < (catFilter l c).length
      · rw [if_pos hn]
        have hne : ((catFilter l c).length : ℚ) ≠ 0 :=
          Nat.cast_ne_zero.mpr (Nat.pos_iff_ne_zero.mp hn)
        unfold jsDiv
        rw [if_neg hne]
        rfl
      · rw [if_neg hn]
        rfl
  · have h7 : (if 0 < cl.length then (7 : ℚ) else 1) ≠ 0 := by
      by_cases hc : 0 < cl.length
      · rw [if_pos hc]; norm_num
      · rw [if_neg hc]; norm_num
    unfold avgPerDay jsDiv
    rw [if_neg h7]
    rfl
  · intro p hp hne
    rcases List.mem_map.mp hp with ⟨item, _, rfl⟩
    show ((jsDiv item.amount (sumClient cl)).map (fun q => q * 100)).isSome = true
    unfold jsDiv
    rw [if_neg hne]
    rfl
  · intro st h hlim
    rcases List.mem_map.mp h with ⟨b, _, rfl⟩
    rw [statusOf_budget] at hlim
    have hp : (statusOf (budgetMonthStart now) (startOfWeekBudgets now) l b).percentage =
        (jsDiv (sumAmounts (l.filter (fun e => matchesBudget b e &&
          decide (periodStart (budgetMonthStart now) (startOfWeekBudgets now) b ≤ e.ts))))
          b.limit).map (fun q => q * 100) := rfl
    rw [hp]
    unfold jsDiv
    rw [if_neg hlim]
    rfl

/-- Witness for C9 (amended): a concrete category entry of the worked
example, a concrete pie item over a positive grand total, and a concrete
budget with nonzero limit all produce defined percentages. -/
theorem aggregation_division_fallbacks_witness :
    (entryOf exExpenses "Food").percentage.isSome = true ∧
    (⟨"Food", 50, some 100⟩ : ClientPiePoint).percentage.isSome = true ∧
    wStatus.percentage.isSome = true :=
  ⟨((aggregation_division_fallbacks exExpenses [] 0 0 [] (fun _ => "d")
      (fun s => s) (fun _ => 0)).2.2.2.1
      (entryOf exExpenses "Food")
      (entryOf_mem_categoryReport exExpenses "Food" (by decide))).1,
   (aggregation_division_fallbacks [] wClientExpenses 0 0 [] (fun _ => "d")
      (fun s => s) (fun _ => 0)).2.2.2.2.2.1
      ⟨"Food", 50, some 100⟩ (by decide) (by decide),
   (aggregation_division_fallbacks wBudgetExpenses [] 0 0 [wBudget] (fun _ => "d")
      (fun s => s) (fun _ => 0)).2.2.2.2.2.2 wStatus
      (List.mem_map_of_mem _ (List.mem_cons_self _ _)) (by decide)⟩

end

end Spendwise
